import Mathlib

/-!
# Verification of `WHDArchiveExtractor.c`

A shallow embedding of the WHD-Archive-Extractor source (single file
`src/WHDArchiveExtractor.c`) together with proofs about the claims of the
specification.

Modelling conventions:
* C byte strings become `List Char`; `NULL` results become `Option`.
* The recursive directory walker `get_directory_contents` becomes a
  recursive function over an explicit directory tree (`Entry`), threading
  the program's mutable globals through a state record `St`.
* External collaborators (the `Lock`/`Examine`/`ExNext` filesystem API,
  `SystemTagList`, the `lha vq` listing file parsed by
  `find_first_directory`, and the `Info()` query inside
  `check_disk_space`) are abstracted as oracle fields of an `Env` record.
* Every observable action (subprocess dispatch, per-entry visit, error-log
  append) is recorded in an event trace; each event is annotated with the
  value of the abort flag `should_stop_app` at the moment it is emitted.
-/

/-- The byte string of a string literal. -/
def str (s : String) : List Char := s.data

/-- ASCII `toupper`, as applied by `get_file_extension` (src line 241). -/
def toupperC (c : Char) : Char :=
  if 'a' ≤ c ∧ c ≤ 'z' then Char.ofNat (c.toNat - 32) else c

/-- Core loop of `sanitize_amiga_path` (src lines 156-180).  The boolean
records whether the scan is inside the "skip all slashes following a
colon" inner loop (src lines 164-168); the second rewrite is the
two-character lookahead `path[i] == '/' && path[i+1] == '/'` (src line
170), which drops the first slash of a pair. -/
def sanitizeLoop : Bool → List Char → List Char
  | _, [] => []
  | afterColon, c :: rest =>
    if c = '/' then
      if afterColon then sanitizeLoop true rest
      else if rest.head? = some '/' then sanitizeLoop false rest
      else '/' :: sanitizeLoop false rest
    else if c = ':' then ':' :: sanitizeLoop true rest
    else c :: sanitizeLoop false rest

/-- `sanitize_amiga_path` (src lines 137-187) as a pure function on the
byte string: removes slashes immediately following a colon and collapses
runs of slashes. -/
def sanitize_amiga_path (path : List Char) : List Char :=
  sanitizeLoop false path

/-- `remove_text` (src lines 200-214): drops `text_to_remove` from the
front of `input_str` when it is a prefix (the `strncmp` test at src line
205); otherwise returns the input unchanged. -/
def remove_text (input_str text_to_remove : List Char) : List Char :=
  if input_str.take text_to_remove.length = text_to_remove then
    input_str.drop text_to_remove.length
  else input_str

/-- `get_file_extension` (src lines 227-246): the last four bytes of the
filename, upper-cased.  `none` models the `NULL` return for names shorter
than four bytes; in that case the caller's stack buffer is left unset and
the archive-extension comparison at src line 469 cannot reliably match,
which we model as "not an archive". -/
def get_file_extension (filename : List Char) : Option (List Char) :=
  if filename.length < 4 then none
  else some ((filename.drop (filename.length - 4)).map toupperC)

/-- Index of the last occurrence of `ch` in `l` (C `strrchr`, src lines
253-254, expressed as an index rather than a pointer). -/
def strrchrPos : List Char → Char → Option Nat
  | [], _ => none
  | c :: rest, ch =>
    match strrchrPos rest ch with
    | some i => some (i + 1)
    | none => if c = ch then some 0 else none

/-- `get_file_path` (src lines 248-275): the prefix of `full_path` up to
and including the later of the last `/` and the last `\`
(`last_slash > last_back_slash ? last_slash : last_back_slash`, src line
255); `none` models the `NULL` return when no separator is present. -/
def get_file_path (full_path : List Char) : Option (List Char) :=
  let last_slash := strrchrPos full_path '/'
  let last_back_slash := strrchrPos full_path '\\'
  let last_path_separator : Option Nat :=
    match last_slash, last_back_slash with
    | none, none => none
    | some i, none => some i
    | none, some j => some j
    | some i, some j => if j < i then some i else some j
  match last_path_separator with
  | none => none
  | some i => some (full_path.take (i + 1))

/-- `remove_trailing_slash` (src lines 331-337). -/
def remove_trailing_slash (s : List Char) : List Char :=
  if s.getLast? = some '/' then s.dropLast else s

/-- The flag-scanning loop of `main` (src lines 852-863): starting at
`argv[4]`, `-enablespacecheck` clears `skip_disk_space_check`
(initialised to `true` at src line 852) and `-testarchivesonly` sets
`test_archives_only`.  Returns the final pair
`(skip_disk_space_check, test_archives_only)`. -/
def parse_cli_flags (argv : List (List Char)) : Bool × Bool :=
  (argv.drop 4).foldl
    (fun acc a =>
      ((if a = str "-enablespacecheck" then false else acc.1),
       (if a = str "-testarchivesonly" then true else acc.2)))
    (true, false)

/-- A directory entry as enumerated by `Examine`/`ExNext`
(`fib_DirEntryType > 0` marks a directory, src line 459). -/
inductive Entry where
  | file (name : List Char)
  | dir (name : List Char) (contents : List Entry)

/-- Observable events of a run: a `SystemTagList` subprocess dispatch, a
directory-entry visit (the counter increment at src line 444), a
subdirectory recursion (the second increment at src line 461), and an
error-log append (`log_error`, recorded together with the array index
`error_count` that src line 349 writes to). -/
inductive Event where
  | invoke (cmd : List Char)
  | entryVisited
  | dirEnter
  | errorLogged (idx : Nat)
deriving DecidableEq

/-- An event annotated with the value of `should_stop_app` at the moment
it was emitted. -/
abbrev TEvent := Bool × Event

/-- The walker's mutable globals (src lines 82-121). -/
structure St where
  errors : List (List Char)
  should_stop_app : Bool
  num_directories_scanned : Nat
  num_lha_archives_found : Nat
  num_lzx_archives_found : Nat
  num_archives_found : Nat
deriving DecidableEq

/-- The globals' initial values. -/
def St.init : St := ⟨[], false, 0, 0, 0, 0⟩

/-- Startup configuration and external collaborators, fixed for one run. -/
structure Env where
  /-- Global `input_file_path`: the source root (src line 868). -/
  input_file_path : List Char
  /-- Global `output_directory_path` (`argv[2]`, after
  `remove_trailing_slash`). -/
  output_directory_path : List Char
  /-- Oracle for `does_folder_exists` (src lines 310-322), i.e. whether
  `Lock` succeeds on the given path. -/
  does_folder_exists : List Char → Bool
  /-- Oracle for `find_first_directory "ram:listing.txt"` after
  `c:lha vq` has run on the given archive path (src lines 376-411 and
  509-512): the prefix before the first `/` of the first listing line
  containing one, or `none` when no line contains `/`. -/
  find_first_directory : List Char → Option (List Char)
  /-- Oracle for the `SystemTagList` return code of a dispatched command
  (src line 659). -/
  systemTagList : List Char → Int
  /-- Result of `check_disk_space output_directory_path 20` (src lines
  730-773): `0` when space is known sufficient (including the
  negative-free-space case), negative otherwise. -/
  check_disk_space : Int
  /-- `skip_disk_space_check` after flag parsing. -/
  skip_disk_space_check : Bool
  /-- `test_archives_only` after flag parsing. -/
  test_archives_only : Bool
  /-- Global `lzx_extract_command`, set by the tool probe in `main` (src
  lines 816-839); stays empty (zero-initialised) when `c:unlzx` is
  absent. -/
  lzx_extract_command : List Char
  /-- Global `lzx_extract_target_command`; stays empty when `c:unlzx` is
  absent or its version is unknown. -/
  lzx_extract_target_command : List Char
  /-- Whether `does_file_exist "c:unlzx"` holds (src lines 805 and 920). -/
  unlzx_present : Bool

/-- `log_error` (src lines 347-352): store the message (truncated to 255
bytes by the `strncpy` and the forced terminator at index 255) at array
index `error_count` and increment `error_count`.  The C code performs no
bound check before the write; the emitted event records the index
written. -/
def log_error (st : St) (msg : List Char) : St × TEvent :=
  ({st with errors := st.errors ++ [msg.take 255]},
   (st.should_stop_app, Event.errorLogged st.errors.length))

/-- Message of src lines 453-454. -/
def msg_current_too_long : List Char :=
  str "Path too long for current_file_path buffer."

/-- Message of src lines 479-480 and 525-526. -/
def msg_fcs_too_long : List Char :=
  str "Path too long for fileCommandStore buffer."

/-- Message of src lines 555-556 and 642-643. -/
def msg_cmd_too_long : List Char :=
  str "Error: Path too long for extraction_command buffer."

/-- Src lines 670-680 / 693-707: copy the archive path into the 256-byte
`single_error_message` buffer (truncated to 255 bytes) and append the
suffix only when it fits. -/
def compose_error_message (current suffix : List Char) : List Char :=
  let base := current.take 255
  if base.length + suffix.length < 256 then base ++ suffix else base

/-- Src lines 600-718: the per-archive disk-space gate, command assembly,
dispatch and result classification.  `pre` carries the events already
emitted for this archive (listing/protect preparation).

Src line 601 unconditionally assigns `should_stop_app = 0` before the
gate; a failed gate (negative `check_disk_space` with the check enabled)
only prints a message and sets `should_stop_app = 1` — it does not call
`log_error`.  The `error_count >= MAX_ERRORS` check (src line 711) sits
inside the `should_stop_app == 0` block, after the dispatch.  The C
sequence `should_stop_app = 0` (line 601), the conditional
`should_stop_app = 1` (line 616) and the `if (should_stop_app == 0)`
dispatch guard (line 619) are folded into one conditional: a failed gate
skips the dispatch and leaves `should_stop_app` set, otherwise
`should_stop_app` is (re)set to `0` and the dispatch proceeds. -/
def dispatch_extraction (env : Env) (current : List Char)
    (program_name ExtractCommand ExtractTargetCommand : List Char)
    (st : St) (pre : List TEvent) : St × List TEvent :=
  if env.skip_disk_space_check = false ∧ env.check_disk_space < 0 then
    ({st with should_stop_app := true}, pre)
  else
    let st3 := {st with should_stop_app := false,
                        num_archives_found := st.num_archives_found + 1}
    match get_file_path (remove_text current env.input_file_path) with
    | none => (st3, pre)
    | some file_path_tmp =>
      let needed := program_name.length + 1 + ExtractCommand.length + 3
        + current.length + 3 + ExtractTargetCommand.length + 3
        + env.output_directory_path.length + 1 + file_path_tmp.length + 2 + 1
      if needed ≤ 256 then
        let cmd := sanitize_amiga_path
          (program_name ++ str " " ++ ExtractCommand ++ str " \"" ++ current
            ++ str "\" " ++ ExtractTargetCommand ++ str " \""
            ++ env.output_directory_path ++ str "/" ++ file_path_tmp
            ++ str "\"")
        let ev : TEvent := (st3.should_stop_app, Event.invoke cmd)
        let command_result := env.systemTagList cmd
        let stage : St × List TEvent :=
          if command_result ≠ 0 then
            if command_result = 10 then
              let le := log_error st3
                (compose_error_message current (str " is corrupt"))
              (le.1, [le.2])
            else
              let le := log_error st3
                (compose_error_message current
                  (str " failed to extract. Unknown error"))
              (le.1, [le.2])
          else (st3, [])
        let st5 :=
          if 40 ≤ stage.1.errors.length then
            {stage.1 with should_stop_app := true}
          else stage.1
        (st5, pre ++ ev :: stage.2)
      else
        let stage := log_error st3 msg_cmd_too_long
        (stage.1, pre ++ [stage.2])

/-- Src lines 517-541: the path whose existence the preparation step
probes.  Note that after composing
`output / file_path_tmp / directoryName` (src lines 519-523), the code
appends `"/"` and `directoryName` a second time (the guarded `strncat`
calls at src lines 535-540), so the probed path ends in
`<directoryName>/<directoryName>`. -/
def protect_probe_path (env : Env) (fpt2 directoryName : List Char) :
    List Char :=
  let fcs0 := env.output_directory_path ++ str "/" ++ fpt2 ++ str "/"
    ++ directoryName
  let fcs1 := if fcs0.length + 1 < 256 then fcs0 ++ str "/" else fcs0
  let fcs2 :=
    if fcs1.length + directoryName.length < 256 then fcs1 ++ directoryName
    else fcs1
  sanitize_amiga_path fcs2

/-- Src lines 506-579: the LHA protection-bit preparation, executed for
every LHA archive in extract mode (`reset_protection_bits` is always `1`:
src lines 93 and 428).  Dispatches `c:lha vq` with the listing redirected
to `ram:listing.txt`, reads the first directory name from the listing,
and, when the probed path exists, dispatches the preparation command --
which the code composes as `<path>/#? ALL rwed >NIL:` with no `protect`
verb in front (src lines 548-553, 567).  Returns `Sum.inl (st, trace)`
when the C code hits a `continue` (abandoning this archive before the
disk gate), and `Sum.inr trace` when control falls through to the gate
with the given events already emitted. -/
def lha_protect_prep (env : Env) (current : List Char) (st1 : St) :
    (St × List TEvent) ⊕ (List TEvent) :=
  let vq_cmd := sanitize_amiga_path
    (str "c:lha vq \"" ++ current ++ str "\" >ram:listing.txt")
  let ev_vq : TEvent := (st1.should_stop_app, Event.invoke vq_cmd)
  match env.find_first_directory current with
  | none => Sum.inr [ev_vq]
  | some directoryName =>
    match get_file_path (remove_text current env.input_file_path) with
    | none => Sum.inl (st1, [ev_vq])
    | some fpt2 =>
      if env.output_directory_path.length + 1 + fpt2.length + 1
          + directoryName.length + 1 ≤ 256 then
        if env.does_folder_exists (protect_probe_path env fpt2 directoryName)
          then
          match get_file_path (remove_text current env.input_file_path) with
          | none => Sum.inl (st1, [ev_vq])
          | some fpt3 =>
            if env.output_directory_path.length + 1 + fpt3.length + 1
                + directoryName.length + (str "/#? ALL rwed >NIL:").length + 1
                ≤ 256 then
              let protect_cmd := sanitize_amiga_path
                (env.output_directory_path ++ str "/" ++ fpt3 ++ str "/"
                  ++ directoryName ++ str "/#? ALL rwed >NIL:")
              Sum.inr [ev_vq, (st1.should_stop_app, Event.invoke protect_cmd)]
            else
              let stage := log_error st1 msg_cmd_too_long
              Sum.inl (stage.1, [ev_vq, stage.2])
        else Sum.inr [ev_vq]
      else
        let stage := log_error st1 msg_fcs_too_long
        Sum.inl (stage.1, [ev_vq, stage.2])

/-- Src lines 467-719, the body executed for a file entry: extension
classification, mirror-path computation, the LHA protection-bit
preparation and the gate/dispatch.  `current` is the sanitised full path
of the entry; `name` is the bare entry name. -/
def process_archive_file (env : Env) (current name : List Char)
    (st : St) : St × List TEvent :=
  match get_file_extension name with
  | none => (st, [])
  | some file_extension =>
    if file_extension = str ".LHA" ∨ file_extension = str ".LZX" then
      match get_file_path (remove_text current env.input_file_path) with
      | none => (st, [])
      | some file_path_tmp =>
        if env.output_directory_path.length + 1 + file_path_tmp.length + 1
            ≤ 256 then
          if file_extension = str ".LHA" then
            let st1 :=
              {st with num_lha_archives_found := st.num_lha_archives_found + 1}
            if env.test_archives_only then
              dispatch_extraction env current (str "lha") (str "t")
                (str "  ") st1 []
            else
              match lha_protect_prep env current st1 with
              | Sum.inl out => out
              | Sum.inr pre =>
                dispatch_extraction env current (str "lha")
                  (str "-T -M -N -m x") (str "  ") st1 pre
          else
            let st1 :=
              {st with num_lzx_archives_found := st.num_lzx_archives_found + 1}
            dispatch_extraction env current (str "c:unlzx")
              (if env.test_archives_only then str "-v"
               else env.lzx_extract_command)
              env.lzx_extract_target_command st1 []
        else
          let stage := log_error st msg_fcs_too_long
          (stage.1, [stage.2])
    else (st, [])

/-- `get_directory_contents` (src lines 413-728): the recursive walker.
The enumeration loop condition
`ExNext(dir_lock, file_info_block) && should_stop_app == 0` (src line
440) is the abort check before each entry; `.` and `..` are filtered at
src line 442; the per-entry counter increment is src line 444; the
`current_file_path` composition and its 256-byte bound are src lines
447-456; subdirectories add a second increment and recurse (src lines
459-464). -/
def get_directory_contents (env : Env) (input_directory_path : List Char) :
    List Entry → St → St × List TEvent
  | [], st => (st, [])
  | Entry.file name :: rest, st =>
    if st.should_stop_app = true then (st, [])
    else if name = str "." ∨ name = str ".." then
      get_directory_contents env input_directory_path rest st
    else
      let ev : TEvent := (st.should_stop_app, Event.entryVisited)
      let st1 :=
        {st with num_directories_scanned := st.num_directories_scanned + 1}
      if input_directory_path.length + 1 + name.length + 1 ≤ 256 then
        let current :=
          sanitize_amiga_path (input_directory_path ++ str "/" ++ name)
        let step := process_archive_file env current name st1
        let tail := get_directory_contents env input_directory_path rest step.1
        (tail.1, ev :: (step.2 ++ tail.2))
      else
        let stage := log_error st1 msg_current_too_long
        let tail := get_directory_contents env input_directory_path rest stage.1
        (tail.1, ev :: stage.2 :: tail.2)
  | Entry.dir name contents :: rest, st =>
    if st.should_stop_app = true then (st, [])
    else if name = str "." ∨ name = str ".." then
      get_directory_contents env input_directory_path rest st
    else
      let ev : TEvent := (st.should_stop_app, Event.entryVisited)
      let st1 :=
        {st with num_directories_scanned := st.num_directories_scanned + 1}
      if input_directory_path.length + 1 + name.length + 1 ≤ 256 then
        let current :=
          sanitize_amiga_path (input_directory_path ++ str "/" ++ name)
        let st2 :=
          {st1 with num_directories_scanned := st1.num_directories_scanned + 1}
        let ev2 : TEvent := (st2.should_stop_app, Event.dirEnter)
        let sub := get_directory_contents env current contents st2
        let tail := get_directory_contents env input_directory_path rest sub.1
        (tail.1, ev :: ev2 :: (sub.2 ++ tail.2))
      else
        let stage := log_error st1 msg_current_too_long
        let tail := get_directory_contents env input_directory_path rest stage.1
        (tail.1, ev :: stage.2 :: tail.2)

/-- The summary report of src lines 918-927: when `c:unlzx` is absent and
LZX archives were found, `main` reports how many LZX archives were found
but not expanded. -/
def lzx_skip_report (env : Env) (st : St) : Option Nat :=
  if 0 < st.num_lzx_archives_found ∧ env.unlzx_present = false then
    some st.num_lzx_archives_found
  else none

/-! ## Properties of `sanitize_amiga_path` -/

/-- An adjacent pair that the sanitiser's output never contains:
no slash after a slash, no slash after a colon. -/
def pairAllowed (a b : Char) : Prop :=
  ¬(a = '/' ∧ b = '/') ∧ ¬(a = ':' ∧ b = '/')

/-- Every adjacent pair of the list is allowed. -/
def goodPath : List Char → Prop
  | [] => True
  | [_] => True
  | a :: b :: rest => pairAllowed a b ∧ goodPath (b :: rest)

theorem goodPath_cons (a : Char) (l : List Char) :
    goodPath (a :: l) ↔
      (∀ b, l.head? = some b → pairAllowed a b) ∧ goodPath l := by
  cases l with
  | nil => simp [goodPath]
  | cons b r =>
    simp only [goodPath, List.head?_cons]
    constructor
    · rintro ⟨h1, h2⟩
      exact ⟨fun c hc => by cases hc; exact h1, h2⟩
    · rintro ⟨h1, h2⟩
      exact ⟨h1 b rfl, h2⟩

theorem sanitizeLoop_true_head (l : List Char) :
    (sanitizeLoop true l).head? ≠ some '/' := by
  induction l with
  | nil => simp [sanitizeLoop]
  | cons c rest ih =>
    by_cases hc : c = '/'
    · simpa [sanitizeLoop, hc] using ih
    · by_cases hcol : c = ':'
      · simp [sanitizeLoop, hc, hcol]
      · simp [sanitizeLoop, hc, hcol]

theorem sanitizeLoop_false_head (l : List Char) (h : l.head? ≠ some '/') :
    (sanitizeLoop false l).head? = l.head? := by
  cases l with
  | nil => rfl
  | cons c rest =>
    have hc : ¬ c = '/' := by simpa using h
    by_cases hcol : c = ':'
    · simp [sanitizeLoop, hc, hcol]
    · simp [sanitizeLoop, hc, hcol]

theorem sanitizeLoop_true_eq_false (l : List Char) (h : l.head? ≠ some '/') :
    sanitizeLoop true l = sanitizeLoop false l := by
  cases l with
  | nil => rfl
  | cons c rest =>
    have hc : ¬ c = '/' := by simpa using h
    simp [sanitizeLoop, hc]

theorem goodPath_sanitizeLoop (l : List Char) :
    ∀ b, goodPath (sanitizeLoop b l) := by
  induction l with
  | nil => intro b; simp [sanitizeLoop, goodPath]
  | cons c rest ih =>
    intro b
    by_cases hc : c = '/'
    · subst hc
      cases b with
      | true => simpa [sanitizeLoop] using ih true
      | false =>
        by_cases hh : rest.head? = some '/'
        · simpa [sanitizeLoop, hh] using ih false
        · have hout : (sanitizeLoop false rest).head? = rest.head? :=
            sanitizeLoop_false_head rest hh
          have hstep : sanitizeLoop false ('/' :: rest) =
              '/' :: sanitizeLoop false rest := by
            simp [sanitizeLoop, hh]
          rw [hstep, goodPath_cons]
          refine ⟨fun d hd => ?_, ih false⟩
          rw [hout] at hd
          have hd' : ¬ d = '/' := fun e => hh (by rw [← e]; exact hd)
          exact ⟨fun h2 => hd' h2.2, fun h2 => by
            have : ('/' : Char) = ':' := h2.1
            simp at this⟩
    · by_cases hcol : c = ':'
      · subst hcol
        have hout := sanitizeLoop_true_head rest
        have hstep : sanitizeLoop b (':' :: rest) =
            ':' :: sanitizeLoop true rest := by
          simp [sanitizeLoop, hc]
        rw [hstep, goodPath_cons]
        refine ⟨fun d hd => ?_, ih true⟩
        have hd' : ¬ d = '/' := fun e => hout (by rw [← e]; exact hd)
        exact ⟨fun h2 => by
          have : (':' : Char) = '/' := h2.1
          simp at this, fun h2 => hd' h2.2⟩
      · have hstep : sanitizeLoop b (c :: rest) =
            c :: sanitizeLoop false rest := by
          simp [sanitizeLoop, hc, hcol]
        rw [hstep, goodPath_cons]
        exact ⟨fun d _ => ⟨fun h2 => hc h2.1, fun h2 => hcol h2.1⟩, ih false⟩

theorem sanitizeLoop_eq_of_goodPath : ∀ l, goodPath l → sanitizeLoop false l = l := by
  intro l
  induction l with
  | nil => intro _; rfl
  | cons c rest ih =>
    intro hg
    rw [goodPath_cons] at hg
    obtain ⟨hpair, hrest⟩ := hg
    by_cases hc : c = '/'
    · subst hc
      have hhead : rest.head? ≠ some '/' := fun h =>
        ((hpair '/' h).1) ⟨rfl, rfl⟩
      simp [sanitizeLoop, hhead, ih hrest]
    · by_cases hcol : c = ':'
      · subst hcol
        have hhead : rest.head? ≠ some '/' := fun h =>
          ((hpair '/' h).2) ⟨rfl, rfl⟩
        simp [sanitizeLoop, hc, sanitizeLoop_true_eq_false rest hhead, ih hrest]
      · simp [sanitizeLoop, hc, hcol, ih hrest]

/-- C6 core: the output of the sanitiser is a fixed point of the
sanitiser. -/
theorem sanitize_amiga_path_idem (p : List Char) :
    sanitize_amiga_path (sanitize_amiga_path p) = sanitize_amiga_path p :=
  sanitizeLoop_eq_of_goodPath _ (goodPath_sanitizeLoop p false)

/-- Characters other than `/` and `:` pass through untouched. -/
theorem sanitizeLoop_no_special (l : List Char)
    (h : ∀ c ∈ l, c ≠ '/' ∧ c ≠ ':') : ∀ b, sanitizeLoop b l = l := by
  induction l with
  | nil => intro _; rfl
  | cons c rest ih =>
    intro b
    obtain ⟨hc, hcol⟩ := h c (by simp)
    have ih2 := ih (fun d hd => h d (by simp [hd]))
    simp [sanitizeLoop, hc, hcol, ih2 false]

theorem sanitizeLoop_append_clean (w r : List Char)
    (h : ∀ c ∈ w, c ≠ '/' ∧ c ≠ ':') :
    sanitizeLoop false (w ++ r) = w ++ sanitizeLoop false r := by
  induction w with
  | nil => rfl
  | cons c t ih =>
    obtain ⟨hc, hcol⟩ := h c (by simp)
    simp [sanitizeLoop, hc, hcol, ih (fun d hd => h d (by simp [hd]))]

/-- A root ending in a volume colon absorbs the slash that the walker
inserts before the entry name. -/
theorem sanitize_colon_root (w n : List Char)
    (hw : ∀ c ∈ w, c ≠ '/' ∧ c ≠ ':')
    (hn : ∀ c ∈ n, c ≠ '/' ∧ c ≠ ':') :
    sanitize_amiga_path ((w ++ [':']) ++ str "/" ++ n) = (w ++ [':']) ++ n := by
  have h1 : (w ++ [':']) ++ str "/" ++ n = w ++ (':' :: '/' :: n) := by
    simp [str]
  rw [sanitize_amiga_path, h1, sanitizeLoop_append_clean w _ hw]
  have hhead : n.head? ≠ some '/' := by
    cases n with
    | nil => simp
    | cons d t =>
      have := (hn d (by simp)).1
      simpa using this
  have h2 : sanitizeLoop false (':' :: '/' :: n) = ':' :: n := by
    simp [sanitizeLoop, sanitizeLoop_true_eq_false n hhead,
      sanitizeLoop_no_special n hn false]
  rw [h2]
  simp

/-! ## Properties of `get_file_path` -/

/-- The two path separators recognised by `get_file_path`. -/
def isPathSep (c : Char) : Bool := c = '/' || c = '\\'

theorem strrchrPos_eq_none (l : List Char) (ch : Char)
    (h : ∀ c ∈ l, ¬ c = ch) : strrchrPos l ch = none := by
  induction l with
  | nil => rfl
  | cons c t ih =>
    have h1 : ¬ c = ch := h c (by simp)
    simp [strrchrPos, ih (fun d hd => h d (by simp [hd])), h1]

theorem strrchrPos_lt_length (l : List Char) (ch : Char) :
    ∀ i, strrchrPos l ch = some i → i < l.length := by
  induction l with
  | nil => intro i h; simp [strrchrPos] at h
  | cons c t ih =>
    intro i h
    rw [strrchrPos] at h
    cases h2 : strrchrPos t ch with
    | some j =>
      rw [h2] at h
      simp only [Option.some.injEq] at h
      subst h
      exact Nat.succ_lt_succ (ih j h2)
    | none =>
      rw [h2] at h
      by_cases hc : c = ch
      · rw [if_pos hc] at h
        simp only [Option.some.injEq] at h
        subst h
        simp
      · simp [hc] at h

theorem strrchrPos_append (u v : List Char) (ch : Char) :
    strrchrPos (u ++ v) ch =
      match strrchrPos v ch with
      | some j => some (u.length + j)
      | none => strrchrPos u ch := by
  induction u with
  | nil => cases h : strrchrPos v ch <;> simp [strrchrPos, h]
  | cons c t ih =>
    rw [List.cons_append, strrchrPos, ih]
    cases h : strrchrPos v ch with
    | some j =>
      simp only [List.length_cons]
      rw [Nat.add_right_comm]
    | none =>
      conv_rhs => rw [strrchrPos]

/-- No separator at all: `get_file_path` returns `NULL` (src line 274
reached with `file_path` still `NULL`). -/
theorem get_file_path_eq_none (l : List Char)
    (h : ∀ c ∈ l, isPathSep c = false) : get_file_path l = none := by
  have h1 : strrchrPos l '/' = none := strrchrPos_eq_none l '/' (fun c hc e => by
    have := h c hc
    rw [e] at this
    simp [isPathSep] at this)
  have h2 : strrchrPos l '\\' = none := strrchrPos_eq_none l '\\' (fun c hc e => by
    have := h c hc
    rw [e] at this
    simp [isPathSep] at this)
  simp [get_file_path, h1, h2]

/-- Decomposition form of the claim: when `s` is the last separator of the
path, `get_file_path` returns the prefix up to and including `s`. -/
theorem get_file_path_last_sep (a b : List Char) (s : Char)
    (hs : isPathSep s = true) (hb : ∀ c ∈ b, isPathSep c = false) :
    get_file_path (a ++ s :: b) = some (a ++ [s]) := by
  have hbslash : strrchrPos b '/' = none := strrchrPos_eq_none b '/'
    (fun c hc e => by have := hb c hc; rw [e] at this; simp [isPathSep] at this)
  have hbback : strrchrPos b '\\' = none := strrchrPos_eq_none b '\\'
    (fun c hc e => by have := hb c hc; rw [e] at this; simp [isPathSep] at this)
  have htake : (a ++ s :: b).take (a.length + 1) = a ++ [s] := by
    have h0 : (a ++ s :: b).take (a.length + 1) = a ++ (s :: b).take 1 :=
      List.take_append 1
    simpa using h0
  rw [isPathSep] at hs
  simp only [Bool.or_eq_true, decide_eq_true_eq] at hs
  cases hs with
  | inl hslash =>
    subst hslash
    have hls : strrchrPos (a ++ '/' :: b) '/' = some a.length := by
      rw [strrchrPos_append]
      rw [strrchrPos, hbslash]
      simp
    have hlb : strrchrPos (a ++ '/' :: b) '\\' = strrchrPos a '\\' := by
      rw [strrchrPos_append]
      rw [strrchrPos, hbback]
      simp
    cases hab : strrchrPos a '\\' with
    | none => simp [get_file_path, hls, hlb, hab, htake]
    | some j =>
      have hj : j < a.length := strrchrPos_lt_length a '\\' j hab
      simp [get_file_path, hls, hlb, hab, hj, htake]
  | inr hback =>
    subst hback
    have hlb : strrchrPos (a ++ '\\' :: b) '\\' = some a.length := by
      rw [strrchrPos_append]
      rw [strrchrPos, hbback]
      simp
    have hls : strrchrPos (a ++ '\\' :: b) '/' = strrchrPos a '/' := by
      rw [strrchrPos_append]
      rw [strrchrPos, hbslash]
      simp
    cases hab : strrchrPos a '/' with
    | none => simp [get_file_path, hls, hlb, hab, htake]
    | some i =>
      have hi : i < a.length := strrchrPos_lt_length a '/' i hab
      have hni : ¬ a.length < i := by omega
      simp [get_file_path, hls, hlb, hab, hni, htake]

/-- `remove_text` drops an exact prefix. -/
theorem remove_text_prefix (p n : List Char) : remove_text (p ++ n) p = n := by
  simp [remove_text, List.take_left, List.drop_left]

/-! ## Structural lemmas about the per-archive protocol -/

/-- The two events that advance `num_directories_scanned`. -/
def isWalkEv : Event → Bool
  | Event.entryVisited => true
  | Event.dirEnter => true
  | _ => false

/-- Occurrences of one event kind in a trace. -/
def countEv (t : List TEvent) (ev : Event) : Nat :=
  t.countP (fun e => decide (e.2 = ev))

theorem countEv_cons (e : TEvent) (t : List TEvent) (ev : Event) :
    countEv (e :: t) ev = countEv t ev + if e.2 = ev then 1 else 0 := by
  simp [countEv, List.countP_cons]

theorem countEv_append (t s : List TEvent) (ev : Event) :
    countEv (t ++ s) ev = countEv t ev + countEv s ev := by
  simp [countEv, List.countP_append]

theorem countEv_eq_zero (t : List TEvent) (ev : Event)
    (h : ∀ e ∈ t, ¬ e.2 = ev) : countEv t ev = 0 := by
  rw [countEv, List.countP_eq_zero]
  intro e he
  simp [h e he]

/-- `dispatch_extraction` appends to the trace only flag-false events
that are not walker-counter events. -/
theorem dispatch_extraction_trace (env : Env) (current p ec etc : List Char)
    (st : St) (pre : List TEvent) :
    ∃ t, (dispatch_extraction env current p ec etc st pre).2 = pre ++ t ∧
      ∀ e ∈ t, e.1 = false ∧ isWalkEv e.2 = false := by
  unfold dispatch_extraction
  split
  case isTrue hgate => exact ⟨[], by simp, by simp⟩
  case isFalse hgate =>
    cases hfpt : get_file_path (remove_text current env.input_file_path) with
    | none =>
      simp only [hfpt]
      exact ⟨[], by simp, by simp⟩
    | some fpt =>
      simp only [hfpt]
      split
      case isTrue hneed =>
        refine ⟨_, rfl, ?_⟩
        intro e he
        simp only [List.mem_cons] at he
        rcases he with rfl | he
        · exact ⟨rfl, rfl⟩
        · split at he
          · split at he
            · simp only [log_error, List.mem_singleton] at he
              subst he
              exact ⟨rfl, rfl⟩
            · simp only [log_error, List.mem_singleton] at he
              subst he
              exact ⟨rfl, rfl⟩
          · simp at he
      case isFalse hneed =>
        refine ⟨_, rfl, ?_⟩
        intro e he
        simp only [log_error, List.mem_singleton] at he
        subst he
        exact ⟨rfl, rfl⟩

/-- Elements of a `dispatch_extraction` trace satisfy any property that
the pre-existing events satisfy and that flag-false non-walk events
satisfy. -/
theorem dispatch_extraction_events (env : Env) (current p ec etc : List Char)
    (st : St) (pre : List TEvent)
    (hpre : ∀ e ∈ pre, e.1 = false ∧ isWalkEv e.2 = false) :
    ∀ e ∈ (dispatch_extraction env current p ec etc st pre).2,
      e.1 = false ∧ isWalkEv e.2 = false := by
  obtain ⟨t, ht, hall⟩ := dispatch_extraction_trace env current p ec etc st pre
  rw [ht]
  intro e he
  rcases List.mem_append.mp he with h1 | h2
  · exact hpre e h1
  · exact hall e h2

theorem dispatch_extraction_dirs (env : Env) (current p ec etc : List Char)
    (st : St) (pre : List TEvent) :
    (dispatch_extraction env current p ec etc st pre).1.num_directories_scanned
      = st.num_directories_scanned := by
  simp only [dispatch_extraction, log_error]
  repeat' split
  all_goals rfl

theorem lha_protect_prep_dirs (env : Env) (current : List Char)
    (st1 : St) (out : St × List TEvent)
    (hout : lha_protect_prep env current st1 = Sum.inl out) :
    out.1.num_directories_scanned = st1.num_directories_scanned ∧
    out.1.should_stop_app = st1.should_stop_app := by
  unfold lha_protect_prep at hout
  repeat' split at hout
  all_goals first
    | exact Sum.noConfusion hout
    | (cases hout; exact ⟨rfl, rfl⟩)

theorem process_archive_file_dirs (env : Env) (current name : List Char)
    (st : St) :
    (process_archive_file env current name st).1.num_directories_scanned
      = st.num_directories_scanned := by
  simp only [process_archive_file, log_error]
  repeat' split
  all_goals first
    | rfl
    | (rw [dispatch_extraction_dirs])
    | (rename_i out hout
       exact (lha_protect_prep_dirs env current _ out hout).1)

/-- Every event emitted by the preparation step carries the entry flag
`st1.should_stop_app` and is not a walker-counter event. -/
theorem lha_protect_prep_events (env : Env) (current : List Char)
    (st1 : St) :
    (∀ out, lha_protect_prep env current st1 = Sum.inl out →
       ∀ e ∈ out.2, e.1 = st1.should_stop_app ∧ isWalkEv e.2 = false) ∧
    (∀ pre, lha_protect_prep env current st1 = Sum.inr pre →
       ∀ e ∈ pre, e.1 = st1.should_stop_app ∧ isWalkEv e.2 = false) := by
  constructor
  all_goals
    intro z hz e he
    unfold lha_protect_prep at hz
    repeat' split at hz
    all_goals first
      | exact Sum.noConfusion hz
      | (cases hz
         simp only [log_error, List.mem_cons, List.not_mem_nil, or_false]
           at he
         (rcases he with rfl | rfl) <;> exact ⟨rfl, rfl⟩)

theorem process_archive_file_events (env : Env) (current name : List Char)
    (st : St) (h : st.should_stop_app = false) :
    ∀ e ∈ (process_archive_file env current name st).2,
      e.1 = false ∧ isWalkEv e.2 = false := by
  simp only [process_archive_file]
  cases hext : get_file_extension name with
  | none => intro e he; exact absurd he (List.not_mem_nil e)
  | some ext =>
    dsimp only
    by_cases harch : ext = str ".LHA" ∨ ext = str ".LZX"
    case neg =>
      rw [if_neg harch]
      intro e he; exact absurd he (List.not_mem_nil e)
    case pos =>
      rw [if_pos harch]
      cases hfpt : get_file_path (remove_text current env.input_file_path) with
      | none => intro e he; exact absurd he (List.not_mem_nil e)
      | some fpt =>
        dsimp only
        by_cases hlen :
            env.output_directory_path.length + 1 + fpt.length + 1 ≤ 256
        case neg =>
          rw [if_neg hlen]
          intro e he
          simp only [log_error, List.mem_cons, List.not_mem_nil, or_false] at he
          rcases he with rfl
          exact ⟨h, rfl⟩
        case pos =>
          rw [if_pos hlen]
          by_cases hlha : ext = str ".LHA"
          case pos =>
            rw [if_pos hlha]
            by_cases htest : env.test_archives_only = true
            case pos =>
              rw [if_pos htest]
              exact dispatch_extraction_events env current _ _ _ _ []
                (fun x hx => absurd hx (List.not_mem_nil x))
            case neg =>
              rw [if_neg htest]
              cases hprep : lha_protect_prep env current
                  {st with num_lha_archives_found :=
                    st.num_lha_archives_found + 1} with
              | inl out =>
                dsimp only
                intro e he
                obtain ⟨h1, h2⟩ :=
                  (lha_protect_prep_events env current _).1 out hprep e he
                exact ⟨h1.trans h, h2⟩
              | inr pre =>
                dsimp only
                refine dispatch_extraction_events env current _ _ _ _ pre ?_
                intro x hx
                obtain ⟨h1, h2⟩ :=
                  (lha_protect_prep_events env current _).2 pre hprep x hx
                exact ⟨h1.trans h, h2⟩
          case neg =>
            rw [if_neg hlha]
            exact dispatch_extraction_events env current _ _ _ _ []
              (fun x hx => absurd hx (List.not_mem_nil x))

/-! ## Walker-level theorems -/

/-- Every event of a walk is emitted while `should_stop_app` is clear. -/
theorem get_directory_contents_events (env : Env) :
    ∀ (p : List Char) (l : List Entry) (st : St),
      ∀ e ∈ (get_directory_contents env p l st).2, e.1 = false := by
  intro p l st
  induction p, l, st using get_directory_contents.induct env with
  | case1 p st =>
    intro e he
    simp only [get_directory_contents] at he
    exact absurd he (List.not_mem_nil e)
  | case2 p name rest st hflag =>
    intro e he
    simp only [get_directory_contents] at he
    rw [if_pos hflag] at he
    exact absurd he (List.not_mem_nil e)
  | case3 p name rest st hflag hdot ih =>
    intro e he
    simp only [get_directory_contents] at he
    rw [if_neg hflag, if_pos hdot] at he
    exact ih e he
  | case4 p name rest st hflag hdot st1 hlen current step ih =>
    rw [Bool.not_eq_true] at hflag
    intro e he
    simp only [get_directory_contents] at he
    rw [if_neg (by simp [hflag]), if_neg hdot, if_pos hlen] at he
    dsimp only at he
    rcases List.mem_cons.mp he with rfl | he2
    · exact hflag
    · rcases List.mem_append.mp he2 with h3 | h4
      · exact (process_archive_file_events env current name st1 hflag e h3).1
      · exact ih e h4
  | case5 p name rest st hflag hdot st1 hlen stage ih =>
    rw [Bool.not_eq_true] at hflag
    intro e he
    simp only [get_directory_contents] at he
    rw [if_neg (by simp [hflag]), if_neg hdot, if_neg hlen] at he
    dsimp only at he
    rcases List.mem_cons.mp he with rfl | he2
    · exact hflag
    · rcases List.mem_cons.mp he2 with rfl | he3
      · exact hflag
      · exact ih e he3
  | case6 p name contents rest st hflag =>
    intro e he
    simp only [get_directory_contents] at he
    rw [if_pos hflag] at he
    exact absurd he (List.not_mem_nil e)
  | case7 p name contents rest st hflag hdot ih =>
    intro e he
    simp only [get_directory_contents] at he
    rw [if_neg hflag, if_pos hdot] at he
    exact ih e he
  | case8 p name contents rest st hflag hdot st1 hlen current st2 sub ih1 ih1x ih2 =>
    rw [Bool.not_eq_true] at hflag
    intro e he
    simp only [get_directory_contents] at he
    rw [if_neg (by simp [hflag]), if_neg hdot, if_pos hlen] at he
    dsimp only at he
    rcases List.mem_cons.mp he with rfl | he2
    · exact hflag
    · rcases List.mem_cons.mp he2 with rfl | he3
      · exact hflag
      · rcases List.mem_append.mp he3 with h3 | h4
        · exact ih1 e h3
        · exact ih2 e h4
  | case9 p name contents rest st hflag hdot st1 hlen stage ih =>
    rw [Bool.not_eq_true] at hflag
    intro e he
    simp only [get_directory_contents] at he
    rw [if_neg (by simp [hflag]), if_neg hdot, if_neg hlen] at he
    dsimp only at he
    rcases List.mem_cons.mp he with rfl | he2
    · exact hflag
    · rcases List.mem_cons.mp he2 with rfl | he3
      · exact hflag
      · exact ih e he3

/-- Helper: events of one file entry contribute nothing to the two
walker counters. -/
theorem process_archive_file_countEv (env : Env) (current name : List Char)
    (st : St) (h : st.should_stop_app = false) (ev : Event)
    (hev : isWalkEv ev = true) :
    countEv (process_archive_file env current name st).2 ev = 0 := by
  apply countEv_eq_zero
  intro x hx h2
  have h3 := (process_archive_file_events env current name st h x hx).2
  rw [h2, hev] at h3
  simp at h3

/-- The directories-scanned counter advances exactly with the
`entryVisited` and `dirEnter` events of the trace. -/
theorem get_directory_contents_dirs_count (env : Env) :
    ∀ (p : List Char) (l : List Entry) (st : St),
      (get_directory_contents env p l st).1.num_directories_scanned
        = st.num_directories_scanned
          + countEv (get_directory_contents env p l st).2 Event.entryVisited
          + countEv (get_directory_contents env p l st).2 Event.dirEnter := by
  intro p l st
  induction p, l, st using get_directory_contents.induct env with
  | case1 p st =>
    simp only [get_directory_contents]
    simp [countEv]
  | case2 p name rest st hflag =>
    simp only [get_directory_contents]
    rw [if_pos hflag]
    simp [countEv]
  | case3 p name rest st hflag hdot ih =>
    simp only [get_directory_contents]
    rw [if_neg hflag, if_pos hdot]
    exact ih
  | case4 p name rest st hflag hdot st1 hlen current step ih =>
    rw [Bool.not_eq_true] at hflag
    simp only [get_directory_contents]
    rw [if_neg (by simp [hflag]), if_neg hdot, if_pos hlen]
    dsimp only
    unfold step st1 current at ih
    rw [ih, countEv_cons, countEv_cons, countEv_append, countEv_append,
      process_archive_file_countEv env current name st1 hflag
        Event.entryVisited rfl,
      process_archive_file_countEv env current name st1 hflag
        Event.dirEnter rfl,
      process_archive_file_dirs]
    simp
    omega
  | case5 p name rest st hflag hdot st1 hlen stage ih =>
    rw [Bool.not_eq_true] at hflag
    simp only [get_directory_contents]
    rw [if_neg (by simp [hflag]), if_neg hdot, if_neg hlen]
    dsimp only
    unfold stage st1 at ih
    rw [ih, countEv_cons, countEv_cons, countEv_cons, countEv_cons]
    simp only [log_error]
    simp
    omega
  | case6 p name contents rest st hflag =>
    simp only [get_directory_contents]
    rw [if_pos hflag]
    simp [countEv]
  | case7 p name contents rest st hflag hdot ih =>
    simp only [get_directory_contents]
    rw [if_neg hflag, if_pos hdot]
    exact ih
  | case8 p name contents rest st hflag hdot st1 hlen current st2 sub
      ih1 ih1x ih2 =>
    rw [Bool.not_eq_true] at hflag
    simp only [get_directory_contents]
    rw [if_neg (by simp [hflag]), if_neg hdot, if_pos hlen]
    dsimp only
    unfold st2 st1 current at ih1
    unfold sub st2 st1 current at ih2
    rw [ih2, ih1, countEv_cons, countEv_cons, countEv_cons, countEv_cons,
      countEv_append, countEv_append]
    simp
    omega
  | case9 p name contents rest st hflag hdot st1 hlen stage ih =>
    rw [Bool.not_eq_true] at hflag
    simp only [get_directory_contents]
    rw [if_neg (by simp [hflag]), if_neg hdot, if_neg hlen]
    dsimp only
    unfold stage st1 at ih
    rw [ih, countEv_cons, countEv_cons, countEv_cons, countEv_cons]
    simp only [log_error]
    simp
    omega

/-! ## Claim theorems -/

/-- C3: abort monotonicity.  First conjunct: every event of a run — in
particular every subprocess invocation (`Event.invoke`) — is emitted
while `should_stop_app` is `false`.  Second conjunct: a walker entered
with `should_stop_app` already set returns at once, emitting no event and
dispatching nothing, at every recursion level.  Together: once
`should_stop_app` is set, no further subprocess invocation (decompressor,
`lha vq` listing, or preparation command) occurs, despite the per-archive
`should_stop_app = 0` assignment at src line 601 (which is only reachable
through the loop guard at src line 440, i.e. with the flag already
clear). -/
theorem c3_abort_monotonic :
    (∀ (env : Env) (p : List Char) (l : List Entry) (st : St),
       ((get_directory_contents env p l st).2.all (fun e => !e.1)) = true) ∧
    (∀ (env : Env) (p : List Char) (l : List Entry) (st : St),
       get_directory_contents env p l {st with should_stop_app := true}
         = ({st with should_stop_app := true}, [])) := by
  constructor
  · intro env p l st
    rw [List.all_eq_true]
    intro e he
    simp [get_directory_contents_events env p l st e he]
  · intro env p l st
    cases l with
    | nil => simp [get_directory_contents]
    | cons e rest =>
      cases e with
      | file name => simp [get_directory_contents]
      | dir name contents => simp [get_directory_contents]

/-- C10: the directories-scanned counter is incremented once per
directory entry visited (files and directories alike, `.` and `..`
excluded) and a second time per subdirectory recursed into, so the final
`num_directories_scanned` equals the number of entries visited plus the
number of subdirectories recursed into — not the number of directories
visited. -/
theorem c10_directories_scanned_counts (env : Env) (p : List Char)
    (l : List Entry) (st : St) :
    (get_directory_contents env p l st).1.num_directories_scanned
      = st.num_directories_scanned
        + countEv (get_directory_contents env p l st).2 Event.entryVisited
        + countEv (get_directory_contents env p l st).2 Event.dirEnter :=
  get_directory_contents_dirs_count env p l st

/-- C6: path normalisation is idempotent:
`normalise (normalise p) = normalise p` for every byte string `p`. -/
theorem c6_normalise_idempotent (p : List Char) :
    sanitize_amiga_path (sanitize_amiga_path p) = sanitize_amiga_path p :=
  sanitize_amiga_path_idem p

/-- C7 counterexample: the claim says that for a path with no separator
`get_file_path` returns the empty string; on input `"abc"` the code
returns `NULL` (modelled `none`), and `none` is not the empty string
(callers branch on the `NULL`: src lines 472, 485-488). -/
theorem c7_counterexample_no_separator :
    get_file_path (str "abc") = none ∧
      (none : Option (List Char)) ≠ some (str "") := by
  decide

/-- C7 amended: for every path, `get_file_path` returns the prefix up to
and including the later of the last `/` and the last `\` (second
conjunct, stated via the decomposition `a ++ s :: b` where `s` is the
last separator); for a path containing no separator it returns no value
(`NULL`/`none`), not the empty string (first conjunct). -/
theorem c7_amended_parent_of (a b p : List Char) (s : Char) :
    ((∀ c ∈ p, isPathSep c = false) → get_file_path p = none) ∧
    (isPathSep s = true → (∀ c ∈ b, isPathSep c = false) →
      get_file_path (a ++ s :: b) = some (a ++ [s])) :=
  ⟨get_file_path_eq_none p, get_file_path_last_sep a b s⟩

/-- Witness for the amended C7 at concrete inputs. -/
theorem c7_amended_parent_of_witness :
    get_file_path (str "dir/sub" ++ '\\' :: str "file.lha")
        = some (str "dir/sub" ++ ['\\']) ∧
    get_file_path (str "file.lha") = none :=
  ⟨(c7_amended_parent_of (str "dir/sub") (str "file.lha") (str "file.lha")
      '\\').2 (by decide) (by decide),
   (c7_amended_parent_of [] [] (str "file.lha") '/').1 (by decide)⟩

/-- C8 (code bug): the claim says flag recognition starts at the third
positional argument; the loop at src line 853 starts at `argv[4]`, so
either flag placed at `argv[3]` — the third positional — is silently
ignored (first two conjuncts: `skip_disk_space_check` stays `true`, so
the guard stays off, and `test_archives_only` stays `false`), while the
same flag at `argv[4]` is recognised (third conjunct). -/
theorem c8_flag_at_third_positional_ignored :
    parse_cli_flags
        [str "WHDArchiveExtractor", str "src", str "dst",
         str "-enablespacecheck"] = (true, false) ∧
    parse_cli_flags
        [str "WHDArchiveExtractor", str "src", str "dst",
         str "-testarchivesonly"] = (true, false) ∧
    parse_cli_flags
        [str "WHDArchiveExtractor", str "src", str "dst", str "x",
         str "-enablespacecheck"] = (false, false) := by
  decide

/-! ## C1: the error log can exceed its 40-entry bound -/

/-- A run environment whose source root is 260 bytes long, so that every
entry overflows the 256-byte `current_file_path` buffer (src lines
447-455). -/
def c1_env : Env :=
  { input_file_path := List.replicate 260 'a'
    output_directory_path := str "dst"
    does_folder_exists := fun _ => false
    find_first_directory := fun _ => none
    systemTagList := fun _ => 0
    check_disk_space := 0
    skip_disk_space_check := true
    test_archives_only := false
    lzx_extract_command := str "-x"
    lzx_extract_target_command := str "-o"
    unlzx_present := true }

/-- 41 distinct file names for the C1 run. -/
def c1_names : List (List Char) :=
  [str "e00", str "e01", str "e02", str "e03", str "e04", str "e05", str
   "e06", str "e07", str "e08", str "e09", str "e10", str "e11", str
   "e12", str "e13", str "e14", str "e15", str "e16", str "e17", str
   "e18", str "e19", str "e20", str "e21", str "e22", str "e23", str
   "e24", str "e25", str "e26", str "e27", str "e28", str "e29", str
   "e30", str "e31", str "e32", str "e33", str "e34", str "e35", str
   "e36", str "e37", str "e38", str "e39", str "e40"]

/-- On a run where every file entry overflows the `current_file_path`
buffer, each entry appends one error via the `continue` path of src lines
452-455 and `should_stop_app` is never set: the `error_count >=
MAX_ERRORS` check of src line 711 sits only on the dispatch path and is
never reached here. -/
theorem walk_too_long_run (env : Env) (p : List Char) :
    ∀ (names : List (List Char)) (st : St),
      st.should_stop_app = false →
      (∀ name ∈ names,
        name ≠ str "." ∧ name ≠ str ".." ∧
        ¬(p.length + 1 + name.length + 1 ≤ 256)) →
      (get_directory_contents env p (names.map Entry.file) st).1.errors.length
          = st.errors.length + names.length ∧
      (get_directory_contents env p (names.map Entry.file)
          st).1.should_stop_app = false ∧
      ∀ k < names.length,
        ((false : Bool), Event.errorLogged (st.errors.length + k))
          ∈ (get_directory_contents env p (names.map Entry.file) st).2 := by
  intro names
  induction names with
  | nil =>
    intro st hflag hall
    simp [get_directory_contents, hflag]
  | cons name rest ih =>
    intro st hflag hall
    obtain ⟨hd1, hd2, hlen⟩ := hall name (by simp)
    have hdot : ¬(name = str "." ∨ name = str "..") := by
      rintro (h | h)
      · exact hd1 h
      · exact hd2 h
    have hall2 : ∀ n ∈ rest, n ≠ str "." ∧ n ≠ str ".." ∧
        ¬(p.length + 1 + n.length + 1 ≤ 256) :=
      fun n hn => hall n (by simp [hn])
    simp only [List.map_cons, get_directory_contents]
    rw [if_neg (by simp [hflag]), if_neg hdot, if_neg hlen]
    dsimp only
    obtain ⟨ih1, ih2, ih3⟩ := ih
      (log_error {st with num_directories_scanned :=
        st.num_directories_scanned + 1} msg_current_too_long).1 hflag hall2
    refine ⟨?_, ih2, ?_⟩
    · rw [ih1]
      simp [log_error]
      omega
    · intro k hk
      cases k with
      | zero =>
        apply List.mem_cons_of_mem
        apply List.mem_cons.mpr
        left
        simp [log_error, hflag]
      | succ k =>
        have hk2 : k < rest.length := by simpa using hk
        have hmem := ih3 k hk2
        have hidx : (log_error {st with num_directories_scanned :=
            st.num_directories_scanned + 1}
              msg_current_too_long).1.errors.length + k
            = st.errors.length + (k + 1) := by
          simp [log_error]
          omega
        rw [hidx] at hmem
        exact List.mem_cons_of_mem _ (List.mem_cons_of_mem _ hmem)

set_option maxRecDepth 100000 in
/-- C1 (code bug): after 41 path-too-long error events the error log
holds 41 entries and `should_stop_app` was never set.  In the C code the
41st `log_error` call writes `error_messages_array[40]`, one slot past
the end of the 40-entry array, with no preceding abort — the
`error_count >= MAX_ERRORS` check (src line 711) is bypassed by the
`continue` paths. -/
theorem c1_error_log_exceeds_bound :
    (get_directory_contents c1_env (List.replicate 260 'a')
        (c1_names.map Entry.file) St.init).1.errors.length = 41 ∧
    (get_directory_contents c1_env (List.replicate 260 'a')
        (c1_names.map Entry.file) St.init).1.should_stop_app = false ∧
    ((false : Bool), Event.errorLogged 40)
      ∈ (get_directory_contents c1_env (List.replicate 260 'a')
          (c1_names.map Entry.file) St.init).2 := by
  obtain ⟨h1, h2, h3⟩ := walk_too_long_run c1_env (List.replicate 260 'a')
    c1_names St.init rfl (by decide)
  refine ⟨?_, h2, ?_⟩
  · rw [h1]
    simp [c1_names, St.init]
  · have h4 := h3 40 (by decide)
    simpa [St.init] using h4

/-! ## C2: the protection-bit preparation of scenario S4 -/

/-- Environment for scenario S4: source root `src`, destination `dst`,
an archive whose `lha vq` listing starts with `gameDir/...`, and a disk
on which exactly the claim's candidate directory
`dst/Games/A/gameDir` exists. -/
def c2_env : Env :=
  { input_file_path := str "src"
    output_directory_path := str "dst"
    does_folder_exists := fun p => decide (p = str "dst/Games/A/gameDir")
    find_first_directory := fun _ => some (str "gameDir")
    systemTagList := fun _ => 0
    check_disk_space := 0
    skip_disk_space_check := true
    test_archives_only := false
    lzx_extract_command := str "-x"
    lzx_extract_target_command := str "-o"
    unlzx_present := true }

/-- C2 (code bug), scenario S4.  The claim's candidate
`dest_dir + "/" + first_directory_name` normalises to
`dst/Games/A/gameDir` and that directory exists (conjuncts 1-2); but the
code probes the existence of `dst/Games/A/gameDir/gameDir` — the
directory name appended twice, src lines 535-540 — which does not exist
(conjuncts 3-4), so the run dispatches only the `lha vq` listing and the
extraction, with no preparation command before the extraction
(conjunct 5).  Even when the probed path does exist, the dispatched
preparation command is `dst/Games/A/gameDir/#? ALL rwed >NIL:` with no
`protect` verb in front (src lines 548-553, 567), not the claim's
`protect <candidate>/#? ALL rwed >NIL:` (conjunct 6). -/
theorem c2_protect_preparation_diverges :
    sanitize_amiga_path (str "dst" ++ str "/" ++ str "/Games/A/" ++ str "/"
        ++ str "gameDir") = str "dst/Games/A/gameDir" ∧
    c2_env.does_folder_exists (str "dst/Games/A/gameDir") = true ∧
    protect_probe_path c2_env (str "/Games/A/") (str "gameDir")
        = str "dst/Games/A/gameDir/gameDir" ∧
    c2_env.does_folder_exists (str "dst/Games/A/gameDir/gameDir") = false ∧
    (process_archive_file c2_env (str "src/Games/A/game.lha")
        (str "game.lha") St.init).2
      = [((false : Bool), Event.invoke
            (str "c:lha vq \"src/Games/A/game.lha\" >ram:listing.txt")),
         ((false : Bool), Event.invoke
            (str "lha -T -M -N -m x \"src/Games/A/game.lha\"    \"dst/Games/A/\""))] ∧
    (process_archive_file
        {c2_env with does_folder_exists := fun _ => true}
        (str "src/Games/A/game.lha") (str "game.lha") St.init).2
      = [((false : Bool), Event.invoke
            (str "c:lha vq \"src/Games/A/game.lha\" >ram:listing.txt")),
         ((false : Bool), Event.invoke
            (str "dst/Games/A/gameDir/#? ALL rwed >NIL:")),
         ((false : Bool), Event.invoke
            (str "lha -T -M -N -m x \"src/Games/A/game.lha\"    \"dst/Games/A/\""))] := by
  decide

/-! ## C4: LZX archives with the LZX tool absent -/

/-- Environment with `c:unlzx` absent: the probe never ran, so both LZX
command globals are still empty (zero-initialised, src lines 94-95), and
the dispatched command fails (`SystemTagList` returns `-1`). -/
def c4_env : Env :=
  { input_file_path := str "src"
    output_directory_path := str "dst"
    does_folder_exists := fun _ => false
    find_first_directory := fun _ => none
    systemTagList := fun _ => -1
    check_disk_space := 0
    skip_disk_space_check := true
    test_archives_only := false
    lzx_extract_command := []
    lzx_extract_target_command := []
    unlzx_present := false }

/-- C4 counterexample: with `c:unlzx` absent, processing `src/a.lzx`
counts the archive, but — against the claim's "no extraction subprocess
is dispatched" — still dispatches the command
`c:unlzx  "src/a.lzx"  "dst/"` naming the absent tool, whose failure
appends an entry to the error log. -/
theorem c4_counterexample_dispatch_despite_missing_tool :
    (process_archive_file c4_env (str "src/a.lzx") (str "a.lzx")
        St.init).1.num_lzx_archives_found = 1 ∧
    (process_archive_file c4_env (str "src/a.lzx") (str "a.lzx") St.init).2
      = [((false : Bool), Event.invoke
            (str "c:unlzx  \"src/a.lzx\"  \"dst/\"")),
         ((false : Bool), Event.errorLogged 0)] ∧
    (process_archive_file c4_env (str "src/a.lzx") (str "a.lzx")
        St.init).1.errors
      = [str "src/a.lzx failed to extract. Unknown error"] := by
  decide

/-- C4 amended: with the LZX tool absent (probe strings empty,
`unlzx_present = false`), every LZX archive whose mirror-path computation
succeeds and fits the fixed buffers is still counted, and the final
summary reports the count of LZX archives found but not expanded; an
extraction command naming the absent `c:unlzx` is nevertheless
dispatched for it. -/
theorem c4_amended_lzx_counted_but_dispatched (env : Env)
    (current name : List Char) (st : St) (fpt : List Char)
    (habs : env.lzx_extract_command = [] ∧ env.lzx_extract_target_command = []
      ∧ env.unlzx_present = false)
    (htest : env.test_archives_only = false)
    (hskip : env.skip_disk_space_check = true)
    (hext : get_file_extension name = some (str ".LZX"))
    (hfpt : get_file_path (remove_text current env.input_file_path)
      = some fpt)
    (hlen1 : env.output_directory_path.length + 1 + fpt.length + 1 ≤ 256)
    (hlen2 : (str "c:unlzx").length + 1 + env.lzx_extract_command.length + 3
      + current.length + 3 + env.lzx_extract_target_command.length + 3
      + env.output_directory_path.length + 1 + fpt.length + 2 + 1 ≤ 256) :
    (process_archive_file env current name st).1.num_lzx_archives_found
        = st.num_lzx_archives_found + 1 ∧
    ((false : Bool), Event.invoke (sanitize_amiga_path (str "c:unlzx"
        ++ str " " ++ env.lzx_extract_command ++ str " \"" ++ current
        ++ str "\" " ++ env.lzx_extract_target_command ++ str " \""
        ++ env.output_directory_path ++ str "/" ++ fpt ++ str "\"")))
      ∈ (process_archive_file env current name st).2 ∧
    lzx_skip_report env (process_archive_file env current name st).1
      = some ((process_archive_file env current name st).1.num_lzx_archives_found) := by
  have hproc : process_archive_file env current name st
      = dispatch_extraction env current (str "c:unlzx")
          env.lzx_extract_command env.lzx_extract_target_command
          {st with num_lzx_archives_found := st.num_lzx_archives_found + 1}
          [] := by
    simp only [process_archive_file, hext]
    try dsimp only
    rw [if_pos (Or.inr trivial), hfpt]
    try dsimp only
    rw [if_pos hlen1, if_neg (by decide), if_neg (by simp [htest])]
  rw [hproc, dispatch_extraction]
  rw [if_neg (by simp [hskip]), hfpt]
  try dsimp only
  rw [if_pos hlen2]
  try dsimp only
  refine ⟨?_, ?_, ?_⟩
  · repeat' split
    all_goals rfl
  · exact List.mem_cons_self _ _
  · rw [lzx_skip_report]
    repeat' split
    all_goals first
      | rfl
      | (rename_i hcond
         exact absurd ⟨Nat.succ_pos _, habs.2.2⟩ hcond)

/-- Witness for the amended C4 at a concrete input. -/
theorem c4_amended_witness :
    (process_archive_file c4_env (str "src/b.lzx") (str "b.lzx")
        St.init).1.num_lzx_archives_found
        = St.init.num_lzx_archives_found + 1 ∧
    ((false : Bool), Event.invoke (sanitize_amiga_path (str "c:unlzx"
        ++ str " " ++ c4_env.lzx_extract_command ++ str " \""
        ++ str "src/b.lzx" ++ str "\" " ++ c4_env.lzx_extract_target_command
        ++ str " \"" ++ c4_env.output_directory_path ++ str "/" ++ str "/"
        ++ str "\"")))
      ∈ (process_archive_file c4_env (str "src/b.lzx") (str "b.lzx")
          St.init).2 ∧
    lzx_skip_report c4_env
        (process_archive_file c4_env (str "src/b.lzx") (str "b.lzx")
          St.init).1
      = some ((process_archive_file c4_env (str "src/b.lzx") (str "b.lzx")
          St.init).1.num_lzx_archives_found) :=
  c4_amended_lzx_counted_but_dispatched c4_env (str "src/b.lzx")
    (str "b.lzx") St.init (str "/") ⟨rfl, rfl, rfl⟩ rfl rfl (by decide)
    (by decide) (by decide) (by decide)

/-! ## C5: the disk-space gate -/

/-- Environment with the disk-space guard enabled and the check
reporting insufficient space (`-3`, src line 762). -/
def c5_env : Env :=
  { input_file_path := str "src"
    output_directory_path := str "dst"
    does_folder_exists := fun _ => false
    find_first_directory := fun _ => none
    systemTagList := fun _ => 0
    check_disk_space := -3
    skip_disk_space_check := false
    test_archives_only := false
    lzx_extract_command := str "-x"
    lzx_extract_target_command := str "-o"
    unlzx_present := true }

/-- C5 counterexample: with the guard enabled and the check
non-sufficient, processing `src/a.lzx` sets `should_stop_app` and
dispatches nothing — but, against the claim, appends no record to the
error log (the gate only prints, src lines 604-617). -/
theorem c5_counterexample_no_error_appended :
    (process_archive_file c5_env (str "src/a.lzx") (str "a.lzx")
        St.init).1.errors = [] ∧
    (process_archive_file c5_env (str "src/a.lzx") (str "a.lzx")
        St.init).1.should_stop_app = true ∧
    (process_archive_file c5_env (str "src/a.lzx") (str "a.lzx")
        St.init).2 = [] := by
  decide

/-- C5 amended: when the disk-space guard is enabled and the per-archive
check returns a non-sufficient outcome, the walker prints an error
message, sets `should_stop_app`, and returns without dispatching that
archive's extraction command — for either archive kind and in either
mode — but it appends nothing to the error log.  First conjunct: the
gate inside the dispatch step (src lines 600-618), through which every
extraction command of either kind is routed, returns the state with the
flag set, the error log untouched and no event appended.  Remaining
conjuncts: the walker's per-file body for an LZX archive (either mode),
an LHA archive in test mode, and an LHA archive in extract mode whose
preparation falls through to the gate (for the latter the `lha vq`
listing and possibly the preparation command have already been
dispatched before the gate, so exactly those events remain in the
trace). -/
theorem c5_amended_gate_aborts_without_logging (env : Env)
    (current name program_name EC ETC : List Char) (st : St)
    (pre : List TEvent) (fpt : List Char)
    (hskip : env.skip_disk_space_check = false)
    (hdisk : env.check_disk_space < 0)
    (hfpt : get_file_path (remove_text current env.input_file_path)
      = some fpt)
    (hlen1 : env.output_directory_path.length + 1 + fpt.length + 1 ≤ 256) :
    dispatch_extraction env current program_name EC ETC st pre
      = ({st with should_stop_app := true}, pre) ∧
    (get_file_extension name = some (str ".LZX") →
      process_archive_file env current name st
        = ({st with num_lzx_archives_found := st.num_lzx_archives_found + 1,
                    should_stop_app := true}, [])) ∧
    (get_file_extension name = some (str ".LHA") →
      env.test_archives_only = true →
      process_archive_file env current name st
        = ({st with num_lha_archives_found := st.num_lha_archives_found + 1,
                    should_stop_app := true}, [])) ∧
    (get_file_extension name = some (str ".LHA") →
      env.test_archives_only = false →
      ∀ pre2, lha_protect_prep env current
          {st with num_lha_archives_found := st.num_lha_archives_found + 1}
          = Sum.inr pre2 →
      process_archive_file env current name st
        = ({st with num_lha_archives_found := st.num_lha_archives_found + 1,
                    should_stop_app := true}, pre2)) := by
  have hgate : ∀ (cur prog ec etc : List Char) (s : St) (p : List TEvent),
      dispatch_extraction env cur prog ec etc s p
        = ({s with should_stop_app := true}, p) := by
    intro cur prog ec etc s p
    rw [dispatch_extraction, if_pos ⟨hskip, hdisk⟩]
  refine ⟨hgate current program_name EC ETC st pre, ?_, ?_, ?_⟩
  · intro hext
    simp only [process_archive_file, hext]
    try dsimp only
    rw [if_pos (by decide), hfpt]
    try dsimp only
    rw [if_pos hlen1, if_neg (by decide), hgate]
  · intro hext htest
    simp only [process_archive_file, hext]
    try dsimp only
    rw [if_pos (by decide), hfpt]
    try dsimp only
    rw [if_pos hlen1, if_pos (by decide), if_pos htest, hgate]
  · intro hext htest pre2 hprep
    simp only [process_archive_file, hext]
    try dsimp only
    rw [if_pos (by decide), hfpt]
    try dsimp only
    rw [if_pos hlen1, if_pos (by decide), if_neg (by simp [htest]), hprep]
    try dsimp only
    rw [hgate]

/-- Witness for the amended C5 at concrete inputs: an LHA archive in
extract mode (the trace retains only the `lha vq` listing dispatched
before the gate) and an LZX archive. -/
theorem c5_amended_witness :
    dispatch_extraction c5_env (str "src/b.lha") (str "lha")
        (str "-T -M -N -m x") (str "  ") St.init []
      = ({St.init with should_stop_app := true}, []) ∧
    process_archive_file c5_env (str "src/b.lha") (str "b.lha") St.init
      = ({St.init with num_lha_archives_found := 1,
                       should_stop_app := true},
         [((false : Bool), Event.invoke (sanitize_amiga_path
            (str "c:lha vq \"" ++ str "src/b.lha"
              ++ str "\" >ram:listing.txt")))]) ∧
    process_archive_file c5_env (str "src/c.lzx") (str "c.lzx") St.init
      = ({St.init with num_lzx_archives_found := 1,
                       should_stop_app := true}, []) := by
  have h := c5_amended_gate_aborts_without_logging c5_env (str "src/b.lha")
    (str "b.lha") (str "lha") (str "-T -M -N -m x") (str "  ") St.init []
    (str "/") rfl (by decide) (by decide) (by decide)
  have h2 := c5_amended_gate_aborts_without_logging c5_env (str "src/c.lzx")
    (str "c.lzx") (str "lha") (str "t") (str "  ") St.init []
    (str "/") rfl (by decide) (by decide) (by decide)
  refine ⟨h.1, ?_, h2.2.1 (by decide)⟩
  exact h.2.2.2 (by decide) rfl
    [((false : Bool), Event.invoke (sanitize_amiga_path
       (str "c:lha vq \"" ++ str "src/b.lha" ++ str "\" >ram:listing.txt")))]
    (by decide)

/-! ## C9: archives directly inside a volume root -/

/-- Environment whose source root is the volume root `WHD:`. -/
def c9_env : Env :=
  { input_file_path := str "WHD:"
    output_directory_path := str "dst"
    does_folder_exists := fun _ => true
    find_first_directory := fun _ => none
    systemTagList := fun _ => 0
    check_disk_space := 0
    skip_disk_space_check := true
    test_archives_only := false
    lzx_extract_command := str "-x"
    lzx_extract_target_command := str "-o"
    unlzx_present := true }

/-- C9: when the source root ends in `:` (a volume root), an archive file
directly in that root is skipped entirely: normalisation deletes the `/`
the walker inserts after the colon, prefix-stripping leaves a bare
filename with no separator, `get_file_path` returns `NULL`, and the
walker takes the `continue` at src lines 485-488 — no command is
dispatched, no archive counter is incremented and no error is logged;
only the per-entry `num_directories_scanned` increment remains. -/
theorem c9_colon_root_archive_skipped (env : Env) (w name : List Char)
    (st : St)
    (hin : env.input_file_path = w ++ [':'])
    (hw : ∀ c ∈ w, c ≠ '/' ∧ c ≠ ':')
    (hname : ∀ c ∈ name, c ≠ '/' ∧ c ≠ ':' ∧ c ≠ '\\')
    (hdot1 : name ≠ str ".") (hdot2 : name ≠ str "..")
    (hlen : (w ++ [':']).length + 1 + name.length + 1 ≤ 256)
    (harch : get_file_extension name = some (str ".LHA")
      ∨ get_file_extension name = some (str ".LZX"))
    (hflag : st.should_stop_app = false) :
    get_directory_contents env (w ++ [':']) [Entry.file name] st
      = ({st with num_directories_scanned := st.num_directories_scanned + 1},
         [((false : Bool), Event.entryVisited)]) := by
  have hdot : ¬(name = str "." ∨ name = str "..") := by
    rintro (h | h)
    · exact hdot1 h
    · exact hdot2 h
  have hcur : sanitize_amiga_path ((w ++ [':']) ++ str "/" ++ name)
      = (w ++ [':']) ++ name :=
    sanitize_colon_root w name hw
      (fun c hc => ⟨(hname c hc).1, (hname c hc).2.1⟩)
  have hrem : remove_text ((w ++ [':']) ++ name) (w ++ [':']) = name :=
    remove_text_prefix _ _
  have hfp : get_file_path name = none :=
    get_file_path_eq_none name (fun c hc => by
      obtain ⟨h1, h2, h3⟩ := hname c hc
      simp [isPathSep, h1, h3])
  have hproc : process_archive_file env ((w ++ [':']) ++ name) name
      {st with num_directories_scanned := st.num_directories_scanned + 1}
      = ({st with num_directories_scanned := st.num_directories_scanned + 1},
         []) := by
    rcases harch with h | h
    · simp only [process_archive_file, h]
      try dsimp only
      rw [if_pos (Or.inl trivial), hin, hrem, hfp]
    · simp only [process_archive_file, h]
      try dsimp only
      rw [if_pos (Or.inr trivial), hin, hrem, hfp]
  simp only [get_directory_contents]
  rw [if_neg (by simp [hflag]), if_neg hdot, if_pos hlen]
  try dsimp only
  rw [hcur, hproc]
  simp only [get_directory_contents]
  simp [hflag]

/-- Witness for C9 at a concrete input. -/
theorem c9_colon_root_witness :
    get_directory_contents c9_env (str "WHD" ++ [':'])
        [Entry.file (str "game.lha")] St.init
      = ({St.init with num_directories_scanned := 1},
         [((false : Bool), Event.entryVisited)]) :=
  c9_colon_root_archive_skipped c9_env (str "WHD") (str "game.lha") St.init
    (by decide) (by decide) (by decide) (by decide) (by decide) (by decide)
    (Or.inl (by decide)) rfl
